import Mathlib

/-!
Verification of the redis-key-scanner core (index.js): configuration
validation (`sanitizeOptions`), the per-key selection predicate
(`selectKey`), the batched metadata pipeline, and the scan coordinator
(`scan` / `endScan`) modelled as a small-step event machine.

JavaScript values that flow through the selector are embedded as `JSVal`
(a number, the literal `false` produced by `options.checkTTL && ...`, or
`undefined` as returned for a key that vanished before enrichment), and
the loose JS relational semantics on them is made explicit.
-/

namespace RedisKeyScanner

/-- A JavaScript value reaching the selector: a number, the boolean
`false` (from `options.checkTTL && results[idleIdx + 1][1]`), or
`undefined` (the pipeline result for a key that no longer exists). -/
inductive JSVal where
  | num : Int → JSVal
  | fls : JSVal
  | undefV : JSVal
  deriving DecidableEq, Repr

/-- JS `a <= b` for a value against a number: `undefined` compares false,
`false` coerces to 0. -/
def jsLe (a : JSVal) (b : Int) : Bool :=
  match a with
  | .num n => decide (n ≤ b)
  | .fls => decide ((0 : Int) ≤ b)
  | .undefV => false

/-- JS `a >= b` for a value against a number. -/
def jsGe (a : JSVal) (b : Int) : Bool :=
  match a with
  | .num n => decide (b ≤ n)
  | .fls => decide (b ≤ (0 : Int))
  | .undefV => false

/-- JS strict equality `a === b` against a number. -/
def jsEqInt (a : JSVal) (b : Int) : Bool :=
  match a with
  | .num n => decide (n = b)
  | _ => false

/-- A raw option value as supplied to the constructor: an integer, a
string, or JS `null`.  Absence of a key plays the role of `undefined`. -/
inductive RawVal where
  | num : Int → RawVal
  | str : String → RawVal
  | nullV : RawVal
  deriving DecidableEq, Repr

/-- Raw configuration dictionary handed to `new RedisKeyScanner(...)`. -/
abbrev RawOptions := List (String × RawVal)

/-- JS truthiness of a possibly-absent raw value. -/
def jsTruthy : Option RawVal → Bool
  | none => false
  | some (.num n) => decide (n ≠ 0)
  | some (.str s) => decide (s ≠ "")
  | some .nullV => false

/-- JS `Number(...)` on a string, restricted to optionally-signed integer
literals; the empty string coerces to 0, anything else to NaN (`none`). -/
def parseIntStr (s : String) : Option Int :=
  if s = "" then some 0
  else if s.front = '-' then ((s.drop 1).toNat?).map (fun n => -(n : Int))
  else (s.toNat?).map (fun n => (n : Int))

/-- JS `Number(...)` coercion of a possibly-absent raw value; `none` is
NaN (in particular `Number(undefined)`). -/
def jsToNumber : Option RawVal → Option Int
  | none => none
  | some (.num n) => some n
  | some (.str s) => parseIntStr s
  | some .nullV => some 0

/-- JS string interpolation of a raw value. -/
def jsToString : RawVal → String
  | .num n => toString n
  | .str s => s
  | .nullV => "null"

/-- Seconds per timeframe unit as documented in the usage text. -/
def unitSeconds : Char → Option Int
  | 's' => some 1
  | 'm' => some 60
  | 'h' => some 3600
  | 'd' => some 86400
  | 'w' => some 604800
  | _ => none

/-- Modelled from the spec: the external `timeframe-to-seconds` library
(not part of this repository) accepts strings of the form
`"<number><unit>"` with unit one of s, m, h, d, w and returns the
corresponding number of seconds; any other input yields NaN (`none`). -/
def timeframeToSeconds : RawVal → Option Int
  | .str s =>
    if s.length < 2 then none
    else
      match (s.dropRight 1).toNat?, unitSeconds s.back with
      | some n, some u => some ((n : Int) * u)
      | _, _ => none
  | _ => none

/-- The option keys accepted by `sanitizeOptions` (`supportedOptions` in
the source). -/
def supportedOptions : List String :=
  ["db", "debug", "host", "limit", "maxIdle", "maxTTL", "minIdle", "minTTL", "noExpiry",
   "password", "pattern", "port", "redisMaster", "scanBatch", "scanLimit"]

/-- Sanitized configuration as produced by `sanitizeOptions`.  `scanLimit`
and `limit` use `none` for Infinity (and for non-numeric junk, which the
JS `>=` comparisons silently treat the same way); negative numeric limits
behave exactly like 0 in the JS comparisons and are clamped by `Int.toNat`. -/
structure SOptions where
  host : String
  port : Int
  db : RawVal
  debug : Bool
  password : Option String
  pattern : String
  redisMaster : Option String
  scanBatch : Option Nat
  scanLimit : Option Nat
  limit : Option Nat
  maxIdle : Option Int
  maxTTL : Option Int
  minIdle : Option Int
  minTTL : Option Int
  noExpiry : Option Bool
  deriving DecidableEq, Repr

/-- Timeframe conversion of one optional bound, with the source's error
message on a malformed value. -/
def tfField (raw : RawOptions) (key : String) : Except String (Option Int) :=
  match List.lookup key raw with
  | none => .ok none
  | some v =>
    match timeframeToSeconds v with
    | some n => .ok (some n)
    | none => .error ("Expected " ++ key ++ " to be a timeframe.")

/-- Conversion of the four timeframe bounds in source order (maxIdle,
maxTTL, minIdle, minTTL), propagating the first failure. -/
def tf4 (raw : RawOptions) : Except String (Option Int × Option Int × Option Int × Option Int) :=
  match tfField raw "maxIdle", tfField raw "maxTTL", tfField raw "minIdle", tfField raw "minTTL" with
  | .error e, _, _, _ => .error e
  | _, .error e, _, _ => .error e
  | _, _, .error e, _ => .error e
  | _, _, _, .error e => .error e
  | .ok a, .ok b, .ok c, .ok d => .ok (a, b, c, d)

/-- Numeric option with a default (`scanBatch`, `scanLimit`, `limit`).
The raw value is kept as the JS code keeps it: a number passes through
(negatives clamp to 0, which behaves identically under `>=`), a numeric
string coerces, a non-numeric string never satisfies `>=` and so acts as
Infinity (`none`), and `null` coerces to 0. -/
def natField (raw : RawOptions) (key : String) (dflt : Option Nat) : Option Nat :=
  match List.lookup key raw with
  | none => dflt
  | some (.num n) => some n.toNat
  | some (.str s) => (parseIntStr s).map Int.toNat
  | some .nullV => some 0

/-- Keys of the raw options that are not in `supportedOptions`.  The JS
code inspects the mutated clone, but every key the mutation adds
(`port`, `pattern`, `scanBatch`, `scanLimit`, `limit`) is itself
supported, so the unsupported keys are exactly those of the raw input. -/
def unsupportedKeys (raw : RawOptions) : List String :=
  (raw.map Prod.fst).filter (fun k => !(supportedOptions.contains k))

/-- Shallow embedding of `sanitizeOptions` (index.js lines 80-123):
host truthiness check, `Number(port)` truthiness check, timeframe
conversion of the four bounds, defaulting of the numeric options, and
the unsupported-key check, in source order.  The `_.isNaN` check on
`scanBatch`/`scanLimit`/`lim` ("lim" meaning the select limit) can only
fire on an actual NaN value, which no raw value of this model produces. -/
def sanitizeOptions (raw : RawOptions) : Except String SOptions :=
  if !jsTruthy (List.lookup "host" raw) then .error "Host is required"
  else
    match jsToNumber (List.lookup "port" raw) with
    | none => .error "Port number is required"
    | some p =>
      if p = 0 then .error "Port number is required"
      else
        match tf4 raw with
        | .error e => .error e
        | .ok (mi, mt, ni, nt) =>
          if !(unsupportedKeys raw).isEmpty then
            .error ("Unsupported option(s): " ++ String.intercalate "," (unsupportedKeys raw))
          else
            .ok
              { host := jsToString ((List.lookup "host" raw).getD .nullV)
                port := p
                db :=
                  (match List.lookup "db" raw with
                   | some v => if jsTruthy (some v) then v else .num 0
                   | none => .num 0)
                debug := jsTruthy (List.lookup "debug" raw)
                password := (List.lookup "password" raw).map jsToString
                pattern :=
                  (match List.lookup "pattern" raw with
                   | some v => if jsTruthy (some v) then jsToString v else "*"
                   | none => "*")
                redisMaster := (List.lookup "redisMaster" raw).map jsToString
                scanBatch := natField raw "scanBatch" (some 1000)
                scanLimit := natField raw "scanLimit" none
                limit := natField raw "limit" (some 1000)
                maxIdle := mi
                maxTTL := mt
                minIdle := ni
                minTTL := nt
                noExpiry := (List.lookup "noExpiry" raw).map (fun v => jsTruthy (some v)) }

/-- Whether validation succeeds. -/
def sanitizeOk (raw : RawOptions) : Bool :=
  match sanitizeOptions raw with
  | .ok _ => true
  | .error _ => false

/-- The flag `options.checkTTL` (index.js line 120): some TTL-dependent bound is
present. -/
def checkTTL (o : SOptions) : Bool :=
  o.noExpiry.isSome || o.maxTTL.isSome || o.minTTL.isSome

/-- The connection's description string (index.js line 162):
`redisMaster` when truthy, otherwise `host:port:db`. -/
def description (o : SOptions) : String :=
  match o.redisMaster with
  | some m => if m = "" then o.host ++ ":" ++ toString o.port ++ ":" ++ jsToString o.db else m
  | none => o.host ++ ":" ++ toString o.port ++ ":" ++ jsToString o.db

/-- Shallow embedding of `selectKey` (index.js lines 185-190): the latch
check followed by the five bound clauses, each vacuous when its bound is
absent. -/
def selectKey (o : SOptions) (atSelectLimit : Bool) (idletime ttl : JSVal) : Bool :=
  !atSelectLimit
    && (match o.maxIdle with | none => true | some b => jsLe idletime b)
    && (match o.maxTTL with | none => true | some b => jsLe ttl b)
    && (match o.minIdle with | none => true | some b => jsGe idletime b)
    && (match o.minTTL with | none => true | some b => jsGe ttl b)
    && (match o.noExpiry with | none => true | some b => b && jsEqInt ttl (-1))

/-- State of one key in the store at enrichment time: present with an
idle time and a TTL, or vanished between iteration and enrichment. -/
inductive KeyMeta where
  | present : Int → Int → KeyMeta
  | vanished
  deriving DecidableEq, Repr

/-- Pipeline reply to `OBJECT IDLETIME key`: the idle time, or
`undefined` (an error reply, whose error slot the code ignores) for a
vanished key. -/
def idleResp : KeyMeta → JSVal
  | .present i _ => .num i
  | .vanished => .undefV

/-- Pipeline reply to `TTL key`: the TTL, or the redis sentinel -2 for a
key that no longer exists. -/
def ttlResp : KeyMeta → JSVal
  | .present _ t => .num t
  | .vanished => .num (-2)

/-- A command queued on the per-batch pipeline. -/
inductive RedisCmd where
  | objectIdletime : String → RedisCmd
  | ttlCmd : String → RedisCmd
  deriving DecidableEq, Repr

/-- Commands queued for one key (index.js lines 212-215): `OBJECT
IDLETIME` always, `TTL` only when `checkTTL`. -/
def keyCommands (c : Bool) (key : String) : List RedisCmd :=
  .objectIdletime key :: (if c then [.ttlCmd key] else [])

/-- The single batched round trip issued for a batch of keys. -/
def pipelineCommands (c : Bool) : List String → List RedisCmd
  | [] => []
  | k :: ks => keyCommands c k ++ pipelineCommands c ks

/-- The store's reply to one pipelined command. -/
def respond (store : String → KeyMeta) : RedisCmd → JSVal
  | .objectIdletime k => idleResp (store k)
  | .ttlCmd k => ttlResp (store k)

/-- Execution of `pipeline.exec()`: replies positionally aligned with the commands. -/
def execPipeline (store : String → KeyMeta) (cmds : List RedisCmd) : List JSVal :=
  cmds.map (respond store)

/-- The index arithmetic of index.js lines 222-224: the idle-time reply
for the key at position `i` sits at `2*i` when TTL was also requested
and at `i` otherwise; the TTL value is the JS expression
`options.checkTTL && results[idleIdx + 1][1]`, i.e. literally `false`
when TTL was not requested. -/
def extractMeta (c : Bool) (results : List JSVal) (i : Nat) : JSVal × JSVal :=
  let idleIdx := if c then 2 * i else i
  (results.getD idleIdx .undefV,
   if c then results.getD (idleIdx + 1) .undefV else .fls)

/-- The `{idletime, ttl}` pair the enrichment ought to deliver for a key
directly from the store, used to state positional alignment. -/
def keyMetaVals (o : SOptions) (store : String → KeyMeta) (k : String) : JSVal × JSVal :=
  (idleResp (store k), if checkTTL o then ttlResp (store k) else .fls)

/-- A record entry as written for a selected key (index.js lines
229-231): `{name, key, idletime}` plus `ttl` only when `checkTTL`. -/
structure Entry where
  name : String
  key : String
  idletime : JSVal
  ttl : Option JSVal
  deriving DecidableEq, Repr

/-- Stringification of a possibly-infinite numeric option for the echoed
summary. -/
def optNatToString : Option Nat → String
  | none => "Infinity"
  | some n => toString n

/-- The configuration fields echoed into the summary line, password
included when configured (the summary constructor then omits it). -/
def optionFields (o : SOptions) : List (String × String) :=
  [("host", o.host), ("port", toString o.port), ("db", jsToString o.db),
   ("debug", toString o.debug), ("pattern", o.pattern)]
    ++ (match o.password with | some p => [("password", p)] | none => [])
    ++ (match o.redisMaster with | some r => [("redisMaster", r)] | none => [])
    ++ [("scanBatch", optNatToString o.scanBatch), ("scanLimit", optNatToString o.scanLimit),
        ("limit", optNatToString o.limit)]
    ++ (match o.maxIdle with | some n => [("maxIdle", toString n)] | none => [])
    ++ (match o.maxTTL with | some n => [("maxTTL", toString n)] | none => [])
    ++ (match o.minIdle with | some n => [("minIdle", toString n)] | none => [])
    ++ (match o.minTTL with | some n => [("minTTL", toString n)] | none => [])
    ++ (match o.noExpiry with | some b => [("noExpiry", toString b)] | none => [])
    ++ [("checkTTL", toString (checkTTL o))]

/-- The terminal summary event (index.js lines 196-201). -/
structure Summary where
  keysScanned : Nat
  keysSelected : Nat
  errorMsg : Option String
  echoed : List (String × String)
  deriving DecidableEq, Repr

/-- The summary written by `endScan` on the non-error drain path: final
counts plus the configuration with the password omitted (`_.omit(options,
'password')`).  The general form, with the `error` field that `endScan`'s
`.catch` branch adds when a dispatched pipeline rejected, is
`mkSummaryErr`. -/
def mkSummary (o : SOptions) (ks sel : Nat) : Summary :=
  { keysScanned := ks
    keysSelected := sel
    errorMsg := none
    echoed := (optionFields o).filter (fun f => !(f.1 == "password")) }

/-- An observable event of the scanner stream. -/
inductive Event where
  | record : Entry → Event
  | summary : Summary → Event
  | endEvent : Event
  | errorEvent : Event
  deriving DecidableEq, Repr

/-- JS `keysSelected >= options.limit` / `keysScanned >= options.scanLimit`
with `none` playing Infinity (the comparison is then never true). -/
def natGeLimit (n : Nat) : Option Nat → Bool
  | none => false
  | some m => decide (m ≤ n)

/-- State of one scan, as owned by the coordinator: undelivered batches,
dispatched-but-unsettled batches (settled in dispatch order, as promises
on a single pipelined connection resolve), the counters and the
selection-limit latch, the stream lifecycle flags, and the events
emitted so far. -/
structure MState where
  pending : List (List String)
  inflight : List (List String)
  atSelectLimit : Bool
  keysScanned : Nat
  keysSelected : Nat
  paused : Bool
  endInitiated : Bool
  finished : Bool
  errorEmitted : Bool
  events : List Event
  deriving DecidableEq, Repr

/-- Initial scan state over a given batch sequence. -/
def initState (batches : List (List String)) : MState :=
  { pending := batches
    inflight := []
    atSelectLimit := false
    keysScanned := 0
    keysSelected := 0
    paused := false
    endInitiated := false
    finished := false
    errorEmitted := false
    events := [] }

/-- Evaluation of one key inside a settled pipeline callback (index.js
lines 226-232): if `selectKey` accepts, increment `keysSelected`, set the
latch from `keysSelected >= options.limit`, and write the record. -/
def evalKey (o : SOptions) (s : MState) (key : String) (idletime ttl : JSVal) : MState :=
  if selectKey o s.atSelectLimit idletime ttl then
    { s with
      keysSelected := s.keysSelected + 1
      atSelectLimit := natGeLimit (s.keysSelected + 1) o.limit
      events := s.events ++
        [.record { name := description o, key := key, idletime := idletime,
                   ttl := if checkTTL o then some ttl else none }] }
  else s

/-- The indexed `_.each(batchKeys, (key, i) => ...)` walk over a settled
batch, extracting each key's metadata from the flat reply array. -/
def evalBatchAux (o : SOptions) (results : List JSVal) : MState → Nat → List String → MState
  | s, _, [] => s
  | s, i, k :: ks =>
    let m := extractMeta (checkTTL o) results i
    evalBatchAux o results (evalKey o s k m.1 m.2) (i + 1) ks

/-- Settling of one batch's enrichment round trip (index.js lines
217-235). -/
def evalBatch (o : SOptions) (store : String → KeyMeta) (s : MState) (batch : List String) :
    MState :=
  evalBatchAux o (execPipeline store (pipelineCommands (checkTTL o) batch)) s 0 batch

/-- A scheduling choice: the store delivers the next batch, the iterator
reports exhaustion, the oldest in-flight enrichment settles, the failed
connection surfaces its error, or the once-initiated `endScan` finishes
draining and writes the summary. -/
inductive Choice where
  | deliver
  | exhaust
  | complete
  | connError
  | finish
  deriving DecidableEq, Repr

/-- One small step of the scan coordinator.  `deliver` is the
`scanStream.on('data')` handler (count the batch, dispatch its pipeline,
then pause and initiate `endScan` if a limit is hit); `exhaust` is the
stream's natural `end`; `complete` settles the oldest dispatched
pipeline; `connError` is the once-guarded redis error handler, enabled
only when the connection failed at establishment, before any delivery
(a connection that fails mid-scan, with `endScan`'s rejection-catching
drain, is modelled by the extended machine `stepF`); `finish` is the
body of `endScan` after `Promise.all` of the dispatched pipelines on
the success path, writing exactly one summary followed by the end
signal. -/
def step (o : SOptions) (store : String → KeyMeta) (connFailed : Bool) (s : MState) :
    Choice → MState
  | .deliver =>
    if connFailed || s.paused then s
    else
      match s.pending with
      | [] => s
      | b :: rest =>
        let s1 := { s with
          pending := rest
          keysScanned := s.keysScanned + b.length
          inflight := s.inflight ++ [b] }
        if s1.atSelectLimit || natGeLimit s1.keysScanned o.scanLimit then
          { s1 with paused := true, endInitiated := true }
        else s1
  | .exhaust =>
    if connFailed || s.paused || !s.pending.isEmpty then s
    else { s with endInitiated := true }
  | .complete =>
    match s.inflight with
    | [] => s
    | b :: rest => evalBatch o store { s with inflight := rest } b
  | .connError =>
    if connFailed && !s.errorEmitted then
      { s with errorEmitted := true, events := s.events ++ [.errorEvent] }
    else s
  | .finish =>
    if s.endInitiated && s.inflight.isEmpty && !s.finished then
      { s with
        finished := true
        events := s.events ++
          [.summary (mkSummary o s.keysScanned s.keysSelected), .endEvent] }
    else s

/-- A scan execution under an arbitrary interleaving of deliveries,
settlements and lifecycle events. -/
def run (o : SOptions) (store : String → KeyMeta) (connFailed : Bool)
    (batches : List (List String)) (sched : List Choice) : MState :=
  sched.foldl (step o store connFailed) (initState batches)

/-- Event classifiers and counters over an emitted trace. -/
def isRecordEv : Event → Bool
  | .record _ => true
  | _ => false

/-- Whether an event is the terminal summary. -/
def isSummaryEv : Event → Bool
  | .summary _ => true
  | _ => false

/-- A trace segment consisting solely of record events. -/
def recordsOnly (l : List Event) : Bool := l.all isRecordEv

/-- Number of record events in a trace. -/
def countRecords (l : List Event) : Nat := (l.filter isRecordEv).length

/-- A plain configuration with defaults and no bounds, used for concrete
executions. -/
def baseOpts : SOptions :=
  { host := "localhost", port := 6379, db := .num 0, debug := false, password := none,
    pattern := "*", redisMaster := none, scanBatch := some 1000, scanLimit := none,
    limit := some 1000, maxIdle := none, maxTTL := none, minIdle := none, minTTL := none,
    noExpiry := none }

/-- A store in which every key is present, idle for 0 seconds, with no
expiry. -/
def storePresent : String → KeyMeta := fun _ => .present 0 (-1)

/-- A store in which every key has vanished between iteration and
enrichment. -/
def storeVanished : String → KeyMeta := fun _ => .vanished

/-- The selector as sentence 4.3 of the specification states it, over
numeric metadata: each configured bound clause conjoined, absence
vacuous, and `(no-expiry not requested OR ttl == -1)` where a bound is
"requested" when it is configured truthy. -/
def selectSpecC1 (o : SOptions) (idletime ttl : Int) : Bool :=
  (match o.maxIdle with | none => true | some b => decide (idletime ≤ b))
    && (match o.maxTTL with | none => true | some b => decide (ttl ≤ b))
    && (match o.minIdle with | none => true | some b => decide (b ≤ idletime))
    && (match o.minTTL with | none => true | some b => decide (b ≤ ttl))
    && (!(decide (o.noExpiry = some true)) || decide (ttl = -1))

/-- A configuration whose `noExpiry` option is present with value
`false`, reachable through the module interface (for instance from a raw
`noExpiry: null`). -/
def ceOptsNoExpiryFalse : SOptions := { baseOpts with noExpiry := some false }

/-- Invariant for the select-limit: the latch always equals
`keysSelected >= limit`, and the counter never exceeds the limit. -/
def selInv (m : Nat) (s : MState) : Prop :=
  s.atSelectLimit = decide (m ≤ s.keysSelected) ∧ s.keysSelected ≤ m

/-- Invariant for the scan-limit: every undelivered batch respects the
page bound, the scanner is below the limit whenever it is not paused,
and the scanned counter never exceeds `M - 1` plus one page. -/
def scanInv (M Pg : Nat) (s : MState) : Prop :=
  (∀ b ∈ s.pending, b.length ≤ Pg)
    ∧ (s.paused = false → s.keysScanned < M)
    ∧ s.keysScanned ≤ M - 1 + Pg

/-- Lifecycle invariant of one scan (no connection failure): `endScan`
is initiated only once the stream is paused or drained of pending
batches, a finished scan has initiated `endScan` with no in-flight
pipeline left, before the summary the trace holds exactly one record
event per selected key, and after it the trace is those records
followed by exactly the summary (carrying the final counters) and the
end signal. -/
structure LifeInv (o : SOptions) (s : MState) : Prop where
  endCond : s.endInitiated = true → s.paused = true ∨ s.pending = []
  finCond : s.finished = true → s.endInitiated = true ∧ s.inflight = []
  evsPre : s.finished = false → recordsOnly s.events = true ∧ s.events.length = s.keysSelected
  evsPost : s.finished = true →
    ∃ pre, s.events = pre ++
        [Event.summary (mkSummary o s.keysScanned s.keysSelected), Event.endEvent]
      ∧ recordsOnly pre = true ∧ pre.length = s.keysSelected

/-- The part of the lifecycle invariant that in-flight batch settlement
interacts with, closed under `evalKey`. -/
def lifeCore (s : MState) : Prop :=
  s.finished = false ∧ recordsOnly s.events = true ∧ s.events.length = s.keysSelected
    ∧ (s.endInitiated = true → s.paused = true ∨ s.pending = [])

/-- Shape invariant of every record event in a trace. -/
def recShape (o : SOptions) (store : String → KeyMeta) (s : MState) : Prop :=
  ∀ e : Entry, Event.record e ∈ s.events →
    e.name = description o ∧ e.ttl.isSome = checkTTL o
      ∧ e.idletime = idleResp (store e.key)
      ∧ (checkTTL o = true → e.ttl = some (ttlResp (store e.key)))
      ∧ (checkTTL o = false → e.ttl = none)

/-- The record entry emitted for key "a" in a concrete no-expiry run,
used as the C8 witness. -/
def sampleEntry : Entry :=
  { name := description { baseOpts with noExpiry := some true }
    key := "a"
    idletime := JSVal.num 0
    ttl := some (JSVal.num (-1)) }

/-- Invariant: every summary in the trace echoes the configuration with
the password stripped by `_.omit(options, 'password')`. -/
def noPasswordInv (s : MState) : Prop :=
  ∀ σ : Summary, Event.summary σ ∈ s.events → ∀ v : String, ("password", v) ∉ σ.echoed

/-- Whether one timeframe option converts without error. -/
def tfOk (raw : RawOptions) (key : String) : Bool :=
  match tfField raw key with
  | .ok _ => true
  | .error _ => false

/-- The validation predicate the code actually implements: host truthy,
`Number(port)` a nonzero number, every present timeframe bound parseable,
and no key outside the supported set. -/
def validRaw (raw : RawOptions) : Bool :=
  jsTruthy (List.lookup "host" raw)
    && (match jsToNumber (List.lookup "port" raw) with
        | none => false
        | some p => decide (p ≠ 0))
    && (["maxIdle", "maxTTL", "minIdle", "minTTL"].all (fun k =>
        match List.lookup k raw with
        | none => true
        | some v => (timeframeToSeconds v).isSome))
    && (unsupportedKeys raw).isEmpty

/-- The message carried by the connection-level rejection that the
client's promises surface.  Modelled from the spec: the error payload is
an opaque `{message: string}`; the concrete text is the client's. -/
def connErrMsg : String := "Connection is closed."

/-- The summary written by `endScan` in general (index.js lines
192-204): `Promise.all` over the dispatched pipelines is followed by
`.then(() => null).catch(err => err)`, so the writer receives `null` on
a clean drain and the rejection otherwise; the summary carries the final
counts, an `error` field exactly when the drain rejected, and the
configuration with the password omitted.  `mkSummary` is its error-free
instance. -/
def mkSummaryErr (o : SOptions) (ks sel : Nat) (err : Option String) : Summary :=
  { keysScanned := ks
    keysSelected := sel
    errorMsg := err
    echoed := (optionFields o).filter (fun f => !(f.1 == "password")) }

/-- Scan state extended for a connection that can fail mid-scan:
`connUp` is whether the connection is still alive, `drainFailed`
whether some dispatched pipeline has rejected (which `endScan`'s
`Promise.all` then reports to the summary writer). -/
structure FState where
  core : MState
  connUp : Bool
  drainFailed : Bool
  deriving DecidableEq, Repr

/-- Initial extended state: connection established, no failure seen. -/
def initFState (batches : List (List String)) : FState :=
  { core := initState batches, connUp := true, drainFailed := false }

/-- Scheduling choices of the extended machine: the healthy-connection
events, plus the connection dropping at an arbitrary point
(`connDrop`) and an in-flight pipeline rejecting on the dead
connection (`completeFail`). -/
inductive FChoice where
  | deliver
  | exhaust
  | complete
  | completeFail
  | connDrop
  | connError
  | finish
  deriving DecidableEq, Repr

/-- One small step of the scan under possible mid-scan connection
failure.  While the connection is up, `deliver`, `exhaust` and
`complete` are exactly the corresponding `step` transitions; once it
has dropped (modelled from the spec's client contract: no further batch
delivery and no end signal, a single asynchronous error event), a
still-dispatched pipeline settles by rejection (`completeFail`) —
its completion callback never runs, so no key is evaluated and no
record emitted — and `endScan`'s `.catch` hands the rejection to the
summary writer, so `finish` writes the summary with an `error` field
followed by the end signal (index.js lines 192-204). -/
def stepF (o : SOptions) (store : String → KeyMeta) (st : FState) : FChoice → FState
  | .deliver =>
    if st.connUp then { st with core := step o store false st.core Choice.deliver } else st
  | .exhaust =>
    if st.connUp then { st with core := step o store false st.core Choice.exhaust } else st
  | .complete =>
    if st.connUp then { st with core := step o store false st.core Choice.complete } else st
  | .completeFail =>
    if st.connUp then st
    else
      match st.core.inflight with
      | [] => st
      | _ :: rest =>
        { st with
          core := { st.core with inflight := rest }
          drainFailed := true }
  | .connDrop => { st with connUp := false }
  | .connError =>
    if !st.connUp && !st.core.errorEmitted then
      { st with
        core := { st.core with
          errorEmitted := true
          events := st.core.events ++ [Event.errorEvent] } }
    else st
  | .finish =>
    if st.core.endInitiated && st.core.inflight.isEmpty && !st.core.finished then
      { st with
        core := { st.core with
          finished := true
          events := st.core.events ++
            [Event.summary (mkSummaryErr o st.core.keysScanned st.core.keysSelected
              (if st.drainFailed then some connErrMsg else none)), Event.endEvent] } }
    else st

/-- A scan execution of the extended machine under an arbitrary
interleaving, with the connection possibly failing mid-scan. -/
def runF (o : SOptions) (store : String → KeyMeta)
    (batches : List (List String)) (sched : List FChoice) : FState :=
  sched.foldl (stepF o store) (initFState batches)

/-- Summary events require `endScan` to have been initiated. -/
def uninitNoSummary (s : MState) : Prop :=
  s.endInitiated = false → ∀ σ : Summary, Event.summary σ ∉ s.events

theorem pipelineCommands_append (c : Bool) :
    ∀ l₁ l₂ : List String,
      pipelineCommands c (l₁ ++ l₂) = pipelineCommands c l₁ ++ pipelineCommands c l₂ := by
  intro l₁ l₂
  induction l₁ with
  | nil => rfl
  | cons k l ih => simp [pipelineCommands, ih]

theorem length_pipelineCommands (c : Bool) :
    ∀ l : List String, (pipelineCommands c l).length = (if c then 2 else 1) * l.length := by
  intro l
  induction l with
  | nil => simp [pipelineCommands]
  | cons k l ih =>
    cases c
    · simp [pipelineCommands, keyCommands, ih]
    · simp [pipelineCommands, keyCommands, ih]
      omega

theorem extractMeta_align (c : Bool) (store : String → KeyMeta)
    (pre : List String) (k : String) (post : List String) :
    extractMeta c (execPipeline store (pipelineCommands c (pre ++ k :: post))) pre.length
      = (idleResp (store k), if c then ttlResp (store k) else JSVal.fls) := by
  have hl : (execPipeline store (pipelineCommands c pre)).length = (if c then 2 else 1) * pre.length := by
    rw [execPipeline, List.length_map, length_pipelineCommands]
  rw [show pre ++ k :: post = pre ++ (k :: post) from rfl, pipelineCommands_append]
  rw [show execPipeline store (pipelineCommands c pre ++ pipelineCommands c (k :: post))
      = execPipeline store (pipelineCommands c pre) ++ execPipeline store (pipelineCommands c (k :: post))
    from List.map_append _ _ _]
  cases c
  · simp only [Bool.false_eq_true, if_false, one_mul] at hl
    unfold extractMeta
    simp only [Bool.false_eq_true, if_false]
    rw [List.getD_append_right _ _ _ _ (by omega : (execPipeline store (pipelineCommands false pre)).length ≤ pre.length)]
    rw [show pre.length - (execPipeline store (pipelineCommands false pre)).length = 0 by omega]
    simp [pipelineCommands, keyCommands, execPipeline, respond]
  · simp only [if_true] at hl
    unfold extractMeta
    simp only [if_true]
    rw [List.getD_append_right _ _ _ _ (by omega : (execPipeline store (pipelineCommands true pre)).length ≤ 2 * pre.length)]
    rw [List.getD_append_right _ _ _ _ (by omega : (execPipeline store (pipelineCommands true pre)).length ≤ 2 * pre.length + 1)]
    rw [show 2 * pre.length - (execPipeline store (pipelineCommands true pre)).length = 0 by omega]
    rw [show 2 * pre.length + 1 - (execPipeline store (pipelineCommands true pre)).length = 1 by omega]
    simp [pipelineCommands, keyCommands, execPipeline, respond]

theorem mem_pipelineCommands_idle (c : Bool) :
    ∀ (l : List String) (k : String), k ∈ l →
      RedisCmd.objectIdletime k ∈ pipelineCommands c l := by
  intro l
  induction l with
  | nil => intro k hk; cases hk
  | cons k' l ih =>
    intro k hk
    rcases List.mem_cons.mp hk with h | h
    · subst h; simp [pipelineCommands, keyCommands]
    · simp only [pipelineCommands]
      exact List.mem_append.mpr (Or.inr (ih k h))

theorem mem_pipelineCommands_ttl (c : Bool) :
    ∀ (l : List String) (k : String),
      RedisCmd.ttlCmd k ∈ pipelineCommands c l ↔ (c = true ∧ k ∈ l) := by
  intro l
  induction l with
  | nil => intro k; simp [pipelineCommands]
  | cons k' l ih =>
    intro k
    cases c
    · simp [pipelineCommands, keyCommands, ih]
    · simp [pipelineCommands, keyCommands, ih]

/-- C7: for every batch, the enricher issues a single batched round trip
whose command list requests `OBJECT IDLETIME` for every key of the batch,
requests `TTL` for a key exactly when a TTL-dependent bound (`noExpiry`,
`maxTTL` or `minTTL`) is configured and the key is in the batch, and the
index arithmetic of the completion callback extracts, for the key at
position `|pre|` of the batch, precisely that key's idle-time reply (and
its TTL reply at the adjacent index when TTL was requested). -/
theorem enrichment_round_trip (o : SOptions) (store : String → KeyMeta) (batch : List String) :
    (∀ k, k ∈ batch → RedisCmd.objectIdletime k ∈ pipelineCommands (checkTTL o) batch)
      ∧ (∀ k, RedisCmd.ttlCmd k ∈ pipelineCommands (checkTTL o) batch ↔
          ((o.noExpiry.isSome || o.maxTTL.isSome || o.minTTL.isSome) = true ∧ k ∈ batch))
      ∧ (∀ (pre : List String) (k : String) (post : List String), batch = pre ++ k :: post →
          extractMeta (checkTTL o)
              (execPipeline store (pipelineCommands (checkTTL o) batch)) pre.length
            = keyMetaVals o store k) := by
  refine ⟨mem_pipelineCommands_idle _ batch, ?_, ?_⟩
  · intro k
    rw [mem_pipelineCommands_ttl]
    unfold checkTTL
    tauto
  · intro pre k post hb
    subst hb
    exact extractMeta_align (checkTTL o) store pre k post

/-- C7 (witness): the round-trip contract applied to a concrete
two-key batch under a `maxTTL` configuration. -/
theorem enrichment_round_trip_witness :
    (RedisCmd.objectIdletime "a" ∈
        pipelineCommands (checkTTL { baseOpts with maxTTL := some 10 }) ["a", "b"])
      ∧ extractMeta (checkTTL { baseOpts with maxTTL := some 10 })
          (execPipeline storePresent
            (pipelineCommands (checkTTL { baseOpts with maxTTL := some 10 }) ["a", "b"]))
          1
        = keyMetaVals { baseOpts with maxTTL := some 10 } storePresent "b" :=
  ⟨(enrichment_round_trip { baseOpts with maxTTL := some 10 } storePresent ["a", "b"]).1
      "a" (by decide),
   (enrichment_round_trip { baseOpts with maxTTL := some 10 } storePresent ["a", "b"]).2.2
      ["a"] "b" [] rfl⟩

theorem foldl_pres {α β : Type _} (f : α → β → α) (P : α → Prop)
    (hf : ∀ s c, P s → P (f s c)) : ∀ (l : List β) (s : α), P s → P (l.foldl f s) := by
  intro l
  induction l with
  | nil => intro s hs; exact hs
  | cons c l ih => intro s hs; exact ih _ (hf _ _ hs)

theorem evalBatchAux_pipeline_pres (o : SOptions) (store : String → KeyMeta) (P : MState → Prop)
    (hP : ∀ s k, P s → P (evalKey o s k (keyMetaVals o store k).1 (keyMetaVals o store k).2)) :
    ∀ (post pre : List String) (s : MState), P s →
      P (evalBatchAux o (execPipeline store (pipelineCommands (checkTTL o) (pre ++ post)))
          s pre.length post) := by
  intro post
  induction post with
  | nil => intro pre s hs; simpa [evalBatchAux] using hs
  | cons k post ih =>
    intro pre s hs
    have halign : extractMeta (checkTTL o)
        (execPipeline store (pipelineCommands (checkTTL o) (pre ++ k :: post))) pre.length
        = keyMetaVals o store k := extractMeta_align (checkTTL o) store pre k post
    have hrec := ih (pre ++ [k])
      (evalKey o s k (keyMetaVals o store k).1 (keyMetaVals o store k).2) (hP _ _ hs)
    simp only [List.append_assoc, List.singleton_append, List.length_append,
      List.length_cons, List.length_nil, Nat.zero_add] at hrec
    simpa [evalBatchAux, halign] using hrec

theorem evalBatch_pres (o : SOptions) (store : String → KeyMeta) (P : MState → Prop)
    (hP : ∀ s k, P s → P (evalKey o s k (keyMetaVals o store k).1 (keyMetaVals o store k).2))
    (s : MState) (batch : List String) (hs : P s) : P (evalBatch o store s batch) := by
  have := evalBatchAux_pipeline_pres o store P hP batch [] s hs
  simpa [evalBatch] using this

theorem run_pres (o : SOptions) (store : String → KeyMeta) (cf : Bool)
    (batches : List (List String)) (P : MState → Prop)
    (hstep : ∀ s c, P s → P (step o store cf s c))
    (hinit : P (initState batches)) (sched : List Choice) :
    P (run o store cf batches sched) :=
  foldl_pres _ P hstep sched _ hinit

theorem selectKey_of_latch (o : SOptions) (a b : JSVal) :
    selectKey o true a b = false := by
  unfold selectKey
  simp

theorem evalKey_latched (o : SOptions) (s : MState) (k : String) (a b : JSVal)
    (h : s.atSelectLimit = true) : evalKey o s k a b = s := by
  unfold evalKey
  rw [h, selectKey_of_latch]
  simp

theorem evalKey_selInv (o : SOptions) (m : Nat) (hm : o.limit = some m)
    (s : MState) (k : String) (a b : JSVal) (hs : selInv m s) : selInv m (evalKey o s k a b) := by
  obtain ⟨hi, hb⟩ := hs
  unfold evalKey
  cases hsel : selectKey o s.atSelectLimit a b
  · simpa [hsel] using ⟨hi, hb⟩
  · have hlatch : s.atSelectLimit = false := by
      cases hl : s.atSelectLimit
      · rfl
      · rw [hl, selectKey_of_latch] at hsel
        cases hsel
    have hks : s.keysSelected < m := by
      rw [hlatch] at hi
      have := of_decide_eq_false hi.symm
      omega
    constructor
    · simp [hsel, hm, natGeLimit]
    · simp only [hsel, if_true]
      omega

theorem step_selInv (o : SOptions) (store : String → KeyMeta) (cf : Bool) (m : Nat)
    (hm : o.limit = some m) (s : MState) (c : Choice) (hs : selInv m s) :
    selInv m (step o store cf s c) := by
  cases c
  · simp only [step]
    split
    · exact hs
    · split
      · exact hs
      · split
        · exact hs
        · exact hs
  · simp only [step]
    split
    · exact hs
    · exact hs
  · simp only [step]
    cases hq : s.inflight with
    | nil => exact hs
    | cons b rest =>
      exact evalBatch_pres o store (selInv m)
        (fun s' k' hs' => evalKey_selInv o m hm s' k' _ _ hs') _ b hs
  · simp only [step]
    split
    · exact hs
    · exact hs
  · simp only [step]
    split
    · exact hs
    · exact hs

/-- C2 (counterexample): a select-limit of 0 passes validation (it is a
present numeric value), but the latch starts unset, so the first
matching key is still selected and `keysSelected` reaches 1 > 0: the
"check latch, increment, maybe set latch" sequence bounds the counter
only for positive limits. -/
theorem keysSelected_limit_cex :
    ({ baseOpts with limit := some 0 } : SOptions).limit = some 0
      ∧ (run { baseOpts with limit := some 0 } storePresent false [["a"]]
          [Choice.deliver, Choice.complete]).keysSelected = 1
      ∧ ¬ (run { baseOpts with limit := some 0 } storePresent false [["a"]]
          [Choice.deliver, Choice.complete]).keysSelected ≤ 0 :=
  ⟨rfl, rfl, by decide⟩

/-- C2 (amended): for every select-limit of at least 1, the cumulative
keys-selected counter never exceeds the limit at any point of any
interleaving (hence also in the terminal summary), and once the
selection-limit latch is set no further key is evaluated or emitted —
`evalKey` leaves the state untouched. -/
theorem keysSelected_le_limit (o : SOptions) (store : String → KeyMeta) (cf : Bool)
    (batches : List (List String)) (m : Nat) (hm : o.limit = some m) (h1 : 1 ≤ m) :
    (∀ sched, (run o store cf batches sched).keysSelected ≤ m)
      ∧ (∀ (s : MState) (k : String) (a b : JSVal), s.atSelectLimit = true →
          evalKey o s k a b = s) := by
  constructor
  · intro sched
    have hinit : selInv m (initState batches) := by
      constructor
      · simp only [initState]
        rw [eq_comm, decide_eq_false_iff_not]
        omega
      · simp [initState]
    exact (run_pres o store cf batches (selInv m)
      (fun s c hs => step_selInv o store cf m hm s c hs) hinit sched).2
  · intro s k a b h
    exact evalKey_latched o s k a b h

/-- C2 (witness): the amended bound applied to a concrete run with
limit 1 over two matching keys. -/
theorem keysSelected_le_limit_witness :
    (∀ sched, (run { baseOpts with limit := some 1 } storePresent false [["a", "b"]]
        sched).keysSelected ≤ 1)
      ∧ (∀ (s : MState) (k : String) (a b : JSVal), s.atSelectLimit = true →
          evalKey { baseOpts with limit := some 1 } s k a b = s) :=
  keysSelected_le_limit { baseOpts with limit := some 1 } storePresent false [["a", "b"]]
    1 rfl (by decide)

theorem evalKey_frame (o : SOptions) (s : MState) (k : String) (a b : JSVal) :
    (evalKey o s k a b).pending = s.pending
      ∧ (evalKey o s k a b).inflight = s.inflight
      ∧ (evalKey o s k a b).keysScanned = s.keysScanned
      ∧ (evalKey o s k a b).paused = s.paused
      ∧ (evalKey o s k a b).endInitiated = s.endInitiated
      ∧ (evalKey o s k a b).finished = s.finished
      ∧ (evalKey o s k a b).errorEmitted = s.errorEmitted := by
  unfold evalKey
  split <;> exact ⟨rfl, rfl, rfl, rfl, rfl, rfl, rfl⟩

theorem evalKey_scanInv (o : SOptions) (M Pg : Nat) (s : MState) (k : String) (a b : JSVal)
    (hs : scanInv M Pg s) : scanInv M Pg (evalKey o s k a b) := by
  unfold evalKey
  split <;> exact hs

theorem step_scanInv (o : SOptions) (store : String → KeyMeta) (cf : Bool) (M Pg : Nat)
    (hM : o.scanLimit = some M) (s : MState) (c : Choice)
    (hs : scanInv M Pg s) : scanInv M Pg (step o store cf s c) := by
  obtain ⟨hpend, hpause, hbound⟩ := hs
  cases c
  · simp only [step]
    split
    · exact ⟨hpend, hpause, hbound⟩
    · rename_i hguard
      have hpf : s.paused = false := by
        revert hguard
        cases s.paused <;> simp
      have hks : s.keysScanned < M := hpause hpf
      split
      · exact ⟨hpend, hpause, hbound⟩
      · rename_i b rest hp
        have hb : b.length ≤ Pg := hpend b (by rw [hp]; exact List.mem_cons_self b rest)
        have hrest : ∀ x ∈ rest, x.length ≤ Pg :=
          fun x hx => hpend x (by rw [hp]; exact List.mem_cons_of_mem b hx)
        split
        · refine ⟨hrest, ?_, ?_⟩
          · intro hcontra
            exact absurd hcontra (by simp)
          · show s.keysScanned + b.length ≤ M - 1 + Pg
            omega
        · rename_i hcheck
          have hlt : s.keysScanned + b.length < M := by
            have hn : natGeLimit (s.keysScanned + b.length) o.scanLimit = false := by
              revert hcheck
              cases natGeLimit (s.keysScanned + b.length) o.scanLimit <;> simp
            rw [hM] at hn
            unfold natGeLimit at hn
            have := of_decide_eq_false hn
            omega
          refine ⟨hrest, fun _ => hlt, ?_⟩
          show s.keysScanned + b.length ≤ M - 1 + Pg
          omega
  · simp only [step]
    split
    · exact ⟨hpend, hpause, hbound⟩
    · exact ⟨hpend, hpause, hbound⟩
  · simp only [step]
    cases hq : s.inflight with
    | nil => exact ⟨hpend, hpause, hbound⟩
    | cons b rest =>
      exact evalBatch_pres o store (scanInv M Pg)
        (fun s' k' hs' => evalKey_scanInv o M Pg s' k' _ _ hs') _ b ⟨hpend, hpause, hbound⟩
  · simp only [step]
    split
    · exact ⟨hpend, hpause, hbound⟩
    · exact ⟨hpend, hpause, hbound⟩
  · simp only [step]
    split
    · exact ⟨hpend, hpause, hbound⟩
    · exact ⟨hpend, hpause, hbound⟩

/-- C3 (counterexample): a scan-limit of 0 passes validation, but the
first batch is still delivered and counted in full before the limit
check runs, so `keysScanned` reaches the page size 2, exceeding
`M + (page size - 1) = 1`: the claimed bound holds only for limits of at
least 1. -/
theorem keysScanned_bound_cex :
    ({ baseOpts with scanLimit := some 0, scanBatch := some 2 } : SOptions).scanLimit = some 0
      ∧ (run { baseOpts with scanLimit := some 0, scanBatch := some 2 } storePresent false
          [["a", "b"]] [Choice.deliver]).keysScanned = 2
      ∧ ¬ (2 ≤ 0 + 2 - 1) :=
  ⟨rfl, rfl, by decide⟩

/-- C3 (amended): for every scan-limit `M ≥ 1` and every batch sequence
whose batches are bounded by the page size, the scanned counter never
exceeds `M + (page size - 1)` at any point of any interleaving — the
scanner pauses at the first batch boundary at or after which the count
reaches `M` — and a paused scanner delivers no further batch. -/
theorem keysScanned_le_scanLimit (o : SOptions) (store : String → KeyMeta) (cf : Bool)
    (batches : List (List String)) (M Pg : Nat) (hM : o.scanLimit = some M) (h1 : 1 ≤ M)
    (hb : ∀ b ∈ batches, b.length ≤ Pg) :
    (∀ sched, (run o store cf batches sched).keysScanned ≤ M + Pg - 1)
      ∧ (∀ s : MState, s.paused = true → step o store cf s Choice.deliver = s) := by
  constructor
  · intro sched
    have hinit : scanInv M Pg (initState batches) := ⟨hb, fun _ => h1, by simp [initState]⟩
    have hres := run_pres o store cf batches (scanInv M Pg)
      (fun s c hs => step_scanInv o store cf M Pg hM s c hs) hinit sched
    have := hres.2.2
    omega
  · intro s hp
    simp [step, hp]

/-- C3 (witness): the amended bound applied to a concrete run with
scan-limit 1 and page size 1 over two batches. -/
theorem keysScanned_le_scanLimit_witness :
    (∀ sched, (run { baseOpts with scanLimit := some 1 } storePresent false
        [["a"], ["b"]] sched).keysScanned ≤ 1 + 1 - 1)
      ∧ (∀ s : MState, s.paused = true →
          step { baseOpts with scanLimit := some 1 } storePresent false s Choice.deliver = s) :=
  keysScanned_le_scanLimit { baseOpts with scanLimit := some 1 } storePresent false
    [["a"], ["b"]] 1 1 rfl (by decide) (by decide)

theorem isRecordEv_not_summary (e : Event) (h : isRecordEv e = true) : isSummaryEv e = false := by
  cases e <;> simp [isRecordEv, isSummaryEv] at h ⊢

theorem evalKey_lifeCore (o : SOptions) (s : MState) (k : String) (a b : JSVal)
    (hs : lifeCore s) : lifeCore (evalKey o s k a b) := by
  obtain ⟨hf, hro, hlen, hend⟩ := hs
  unfold evalKey
  split
  · refine ⟨hf, ?_, ?_, hend⟩
    · show recordsOnly (s.events ++ [_]) = true
      simp [recordsOnly, List.all_append, isRecordEv] at hro ⊢
      exact hro
    · show (s.events ++ [_]).length = s.keysSelected + 1
      simp [hlen]
  · exact ⟨hf, hro, hlen, hend⟩

theorem step_lifeInv (o : SOptions) (store : String → KeyMeta) (s : MState) (c : Choice)
    (hs : LifeInv o s) : LifeInv o (step o store false s c) := by
  obtain ⟨hend, hfin, hpre, hpost⟩ := hs
  cases c
  case deliver =>
    simp only [step]
    split
    · exact ⟨hend, hfin, hpre, hpost⟩
    · rename_i hguard
      have hpf : s.paused = false := by
        revert hguard
        cases s.paused <;> simp
      split
      · exact ⟨hend, hfin, hpre, hpost⟩
      · rename_i b rest hp
        have hei : s.endInitiated = false := by
          cases he : s.endInitiated
          · rfl
          · rcases hend he with h | h
            · rw [hpf] at h
              exact absurd h (by simp)
            · rw [hp] at h
              exact absurd h (by simp)
        have hff : s.finished = false := by
          cases hf2 : s.finished
          · rfl
          · have := (hfin hf2).1
            rw [hei] at this
            exact absurd this (by simp)
        split
        · exact ⟨fun _ => Or.inl rfl,
            fun hcontra => absurd hcontra (by simp [hff]),
            fun _ => hpre hff,
            fun hcontra => absurd hcontra (by simp [hff])⟩
        · exact ⟨fun he2 => absurd (show s.endInitiated = true from he2) (by simp [hei]),
            fun hcontra => absurd hcontra (by simp [hff]),
            fun _ => hpre hff,
            fun hcontra => absurd hcontra (by simp [hff])⟩
  case exhaust =>
    simp only [step]
    split
    · exact ⟨hend, hfin, hpre, hpost⟩
    · rename_i hguard
      have hpe : s.pending = [] := by
        have hie : s.pending.isEmpty = true := by
          revert hguard
          cases s.pending.isEmpty <;> simp
        exact List.isEmpty_iff.mp hie
      exact ⟨fun _ => Or.inr hpe, fun hf2 => ⟨rfl, (hfin hf2).2⟩,
        fun h => hpre h, fun h => hpost h⟩
  case complete =>
    simp only [step]
    split
    · exact ⟨hend, hfin, hpre, hpost⟩
    · rename_i b rest hq
      have hff : s.finished = false := by
        cases hf2 : s.finished
        · rfl
        · have h2 := (hfin hf2).2
          rw [hq] at h2
          exact absurd h2 (by simp)
      have hcore : lifeCore { s with inflight := rest } :=
        ⟨hff, (hpre hff).1, (hpre hff).2, fun he2 => hend he2⟩
      have hres := evalBatch_pres o store lifeCore
        (fun s' k' hs' => evalKey_lifeCore o s' k' _ _ hs') _ b hcore
      obtain ⟨hf2, hro2, hlen2, hend2⟩ := hres
      exact ⟨hend2,
        fun hcontra => absurd hcontra (by simp [hf2]),
        fun _ => ⟨hro2, hlen2⟩,
        fun hcontra => absurd hcontra (by simp [hf2])⟩
  case connError =>
    exact ⟨hend, hfin, hpre, hpost⟩
  case finish =>
    simp only [step]
    split
    · rename_i hguard
      have hff : s.finished = false := by
        revert hguard
        cases s.finished <;> simp
      have hie : s.endInitiated = true := by
        revert hguard
        cases s.endInitiated <;> simp
      have hinf : s.inflight = [] := by
        have : s.inflight.isEmpty = true := by
          revert hguard
          cases s.inflight.isEmpty <;> simp
        exact List.isEmpty_iff.mp this
      obtain ⟨hro, hlen⟩ := hpre hff
      refine ⟨fun _ => hend hie, fun _ => ⟨hie, hinf⟩, fun hcontra => (nomatch hcontra), ?_⟩
      intro _
      exact ⟨s.events, rfl, hro, hlen⟩
    · exact ⟨hend, hfin, hpre, hpost⟩

theorem initState_lifeInv (o : SOptions) (batches : List (List String)) :
    LifeInv o (initState batches) :=
  ⟨fun h => (nomatch h), fun h => (nomatch h), fun _ => ⟨rfl, rfl⟩, fun h => (nomatch h)⟩

/-- C4: on every non-error termination path — the run has emitted its
summary — the trace is exactly the selected-key records (all settled
before the summary: at that point no enrichment is in flight), followed
by one summary carrying the final cumulative counters, followed by the
end signal; in particular the summary event is unique, and its
`keysSelected` equals the number of record events emitted. -/
theorem scan_end_summary (o : SOptions) (store : String → KeyMeta)
    (batches : List (List String)) (sched : List Choice)
    (h : (run o store false batches sched).finished = true) :
    (∃ pre, (run o store false batches sched).events
        = pre ++ [Event.summary (mkSummary o (run o store false batches sched).keysScanned
            (run o store false batches sched).keysSelected), Event.endEvent]
      ∧ recordsOnly pre = true
      ∧ pre.length = (run o store false batches sched).keysSelected)
      ∧ (run o store false batches sched).inflight = []
      ∧ ((run o store false batches sched).events.filter isSummaryEv).length = 1
      ∧ countRecords (run o store false batches sched).events
        = (run o store false batches sched).keysSelected := by
  have hres := run_pres o store false batches (LifeInv o)
    (fun s c hs => step_lifeInv o store s c hs) (initState_lifeInv o batches) sched
  obtain ⟨pre, hev, hro, hlen⟩ := hres.evsPost h
  have hall : ∀ e ∈ pre, isRecordEv e = true := List.all_eq_true.mp hro
  refine ⟨⟨pre, hev, hro, hlen⟩, (hres.finCond h).2, ?_, ?_⟩
  · rw [hev, List.filter_append]
    have hnone : pre.filter isSummaryEv = [] := by
      rw [List.filter_eq_nil_iff]
      intro e he
      simp [isRecordEv_not_summary e (hall e he)]
    rw [hnone]
    simp [isSummaryEv]
  · unfold countRecords
    rw [hev, List.filter_append]
    have hself : pre.filter isRecordEv = pre := List.filter_eq_self.mpr hall
    rw [hself]
    simp [isRecordEv, hlen]

/-- C4 (witness): a complete concrete run — one batch, one selected key,
exhaustion, drain and summary. -/
theorem scan_end_summary_witness :
    (∃ pre, (run baseOpts storePresent false [["a"]]
        [Choice.deliver, Choice.complete, Choice.exhaust, Choice.finish]).events
        = pre ++ [Event.summary (mkSummary baseOpts
            (run baseOpts storePresent false [["a"]]
              [Choice.deliver, Choice.complete, Choice.exhaust, Choice.finish]).keysScanned
            (run baseOpts storePresent false [["a"]]
              [Choice.deliver, Choice.complete, Choice.exhaust, Choice.finish]).keysSelected),
          Event.endEvent]
      ∧ recordsOnly pre = true
      ∧ pre.length = (run baseOpts storePresent false [["a"]]
          [Choice.deliver, Choice.complete, Choice.exhaust, Choice.finish]).keysSelected)
      ∧ (run baseOpts storePresent false [["a"]]
          [Choice.deliver, Choice.complete, Choice.exhaust, Choice.finish]).inflight = []
      ∧ ((run baseOpts storePresent false [["a"]]
          [Choice.deliver, Choice.complete, Choice.exhaust, Choice.finish]).events.filter
            isSummaryEv).length = 1
      ∧ countRecords (run baseOpts storePresent false [["a"]]
          [Choice.deliver, Choice.complete, Choice.exhaust, Choice.finish]).events
        = (run baseOpts storePresent false [["a"]]
          [Choice.deliver, Choice.complete, Choice.exhaust, Choice.finish]).keysSelected :=
  scan_end_summary baseOpts storePresent [["a"]]
    [Choice.deliver, Choice.complete, Choice.exhaust, Choice.finish] (by rfl)

theorem evalKey_noError (o : SOptions) (s : MState) (k : String) (a b : JSVal)
    (hs : Event.errorEvent ∉ s.events) : Event.errorEvent ∉ (evalKey o s k a b).events := by
  unfold evalKey
  split
  · show Event.errorEvent ∉ s.events ++ [_]
    simp [hs]
  · exact hs

theorem step_noError (o : SOptions) (store : String → KeyMeta) (s : MState) (c : Choice)
    (hs : Event.errorEvent ∉ s.events) :
    Event.errorEvent ∉ (step o store false s c).events := by
  cases c
  case deliver =>
    simp only [step]
    split
    · exact hs
    · split
      · exact hs
      · split
        · exact hs
        · exact hs
  case exhaust =>
    simp only [step]
    split
    · exact hs
    · exact hs
  case complete =>
    simp only [step]
    split
    · exact hs
    · exact evalBatch_pres o store (fun st => Event.errorEvent ∉ st.events)
        (fun s' k' hs' => evalKey_noError o s' k' _ _ hs') _ _ hs
  case connError =>
    exact hs
  case finish =>
    simp only [step]
    split
    · show Event.errorEvent ∉ s.events ++ [_, _]
      simp [hs]
    · exact hs

theorem run_noError (o : SOptions) (store : String → KeyMeta)
    (batches : List (List String)) (sched : List Choice) :
    Event.errorEvent ∉ (run o store false batches sched).events :=
  run_pres o store false batches (fun st => Event.errorEvent ∉ st.events)
    (fun s c hs => step_noError o store s c hs)
    (by simp [initState]) sched

/-- C6 (counterexample): with no bound configured at all, a key that
vanished between iteration and enrichment (its idle-time reply is
`undefined`) passes every vacuous clause of `selectKey` and IS selected:
a record event is emitted for it (with `undefined` idle time).  The
claim's "excluded from selection" holds only when a bound that looks at
the undefined value is configured. -/
theorem vanished_key_cex :
    storeVanished "a" = KeyMeta.vanished
      ∧ (run baseOpts storeVanished false [["a"]]
          [Choice.deliver, Choice.complete]).keysScanned = 1
      ∧ countRecords (run baseOpts storeVanished false [["a"]]
          [Choice.deliver, Choice.complete]).events = 1 :=
  ⟨rfl, rfl, rfl⟩

/-- C6 (amended): a key that vanishes between iteration and enrichment
is counted in `keysScanned` (the batch is counted in full on delivery)
and never surfaces an error; it is excluded from selection whenever
`minIdle`, `maxIdle` or `noExpiry` is configured, or `minTTL` is
configured with a bound above the -2 sentinel — its `undefined`
idle-time fails both idle comparisons and its TTL reads -2; with no such
bound configured it is selected and emitted like any other key. -/
theorem vanished_key_handling (o : SOptions) (store : String → KeyMeta) (k : String)
    (hv : store k = KeyMeta.vanished)
    (hb : o.minIdle.isSome = true ∨ o.maxIdle.isSome = true ∨ o.noExpiry.isSome = true
      ∨ ∃ t, o.minTTL = some t ∧ -2 < t) :
    (∀ latch : Bool,
        selectKey o latch (keyMetaVals o store k).1 (keyMetaVals o store k).2 = false)
      ∧ (∀ s : MState, evalKey o s k (keyMetaVals o store k).1 (keyMetaVals o store k).2 = s)
      ∧ (∀ (s : MState) (b : List String) (rest : List (List String)),
          s.pending = b :: rest → s.paused = false →
          (step o store false s Choice.deliver).keysScanned = s.keysScanned + b.length)
      ∧ (∀ (batches : List (List String)) (sched : List Choice),
          Event.errorEvent ∉ (run o store false batches sched).events) := by
  have hsel : ∀ latch : Bool,
      selectKey o latch (keyMetaVals o store k).1 (keyMetaVals o store k).2 = false := by
    intro latch
    unfold keyMetaVals
    rw [hv]
    rcases hb with h | h | h | ⟨t, ht, htt⟩
    · obtain ⟨b0, hb0⟩ := Option.isSome_iff_exists.mp h
      simp [selectKey, idleResp, hb0, jsGe]
    · obtain ⟨b0, hb0⟩ := Option.isSome_iff_exists.mp h
      simp [selectKey, idleResp, hb0, jsLe]
    · obtain ⟨b0, hb0⟩ := Option.isSome_iff_exists.mp h
      have hct : checkTTL o = true := by simp [checkTTL, h]
      simp [selectKey, hct, ttlResp, hb0, jsEqInt]
    · have hct : checkTTL o = true := by simp [checkTTL, ht]
      simp only [selectKey, hct, if_true, ttlResp, ht, jsGe]
      have : decide (t ≤ (-2 : Int)) = false := by
        rw [decide_eq_false_iff_not]
        omega
      simp [this]
  refine ⟨hsel, ?_, ?_, fun batches sched => run_noError o store batches sched⟩
  · intro s
    unfold evalKey
    rw [hsel s.atSelectLimit]
    simp
  · intro s b rest hp hpf
    simp only [step, hp, hpf, Bool.false_or, Bool.false_eq_true, if_false]
    split <;> rfl

/-- C6 (witness): the amended exclusion applied to a vanished key under
a configured `minIdle` bound, inside a concrete run. -/
theorem vanished_key_handling_witness :
    (∀ latch : Bool,
        selectKey { baseOpts with minIdle := some 5 } latch
          (keyMetaVals { baseOpts with minIdle := some 5 } storeVanished "a").1
          (keyMetaVals { baseOpts with minIdle := some 5 } storeVanished "a").2 = false)
      ∧ (∀ batches sched, Event.errorEvent ∉
          (run { baseOpts with minIdle := some 5 } storeVanished false batches sched).events) :=
  ⟨(vanished_key_handling { baseOpts with minIdle := some 5 } storeVanished "a" rfl
      (Or.inl rfl)).1,
   (vanished_key_handling { baseOpts with minIdle := some 5 } storeVanished "a" rfl
      (Or.inl rfl)).2.2.2⟩

theorem evalKey_recShape (o : SOptions) (store : String → KeyMeta) (s : MState) (k : String)
    (hs : recShape o store s) :
    recShape o store (evalKey o s k (keyMetaVals o store k).1 (keyMetaVals o store k).2) := by
  unfold evalKey
  split
  · intro e he
    rcases List.mem_append.mp he with h | h
    · exact hs e h
    · simp only [List.mem_singleton, Event.record.injEq] at h
      subst h
      cases hct : checkTTL o
      · exact ⟨rfl, by simp [hct], by simp [keyMetaVals], by intro hc; exact absurd hc (by simp [hct]),
          fun _ => by simp [hct]⟩
      · exact ⟨rfl, by simp [hct], by simp [keyMetaVals],
          fun _ => by simp [hct, keyMetaVals], by intro hc; exact absurd hc (by simp [hct])⟩
  · exact hs

theorem step_recShape (o : SOptions) (store : String → KeyMeta) (cf : Bool)
    (s : MState) (c : Choice) (hs : recShape o store s) :
    recShape o store (step o store cf s c) := by
  cases c
  case deliver =>
    simp only [step]
    split
    · exact hs
    · split
      · exact hs
      · split
        · exact hs
        · exact hs
  case exhaust =>
    simp only [step]
    split
    · exact hs
    · exact hs
  case complete =>
    simp only [step]
    split
    · exact hs
    · exact evalBatch_pres o store (recShape o store)
        (fun s' k' hs' => evalKey_recShape o store s' k' hs') _ _ hs
  case connError =>
    simp only [step]
    split
    · intro e he
      rcases List.mem_append.mp he with h | h
      · exact hs e h
      · exact absurd h (by simp)
    · exact hs
  case finish =>
    simp only [step]
    split
    · intro e he
      rcases List.mem_append.mp he with h | h
      · exact hs e h
      · exact absurd h (by simp)
    · exact hs

/-- C8: every record event carries the connection's source identifier as
`name`, the key, the idle time the enricher returned for that key, and a
`ttl` field exactly when a TTL-dependent bound (`noExpiry`, `maxTTL` or
`minTTL`) is configured — in which case it is that key's TTL reply. -/
theorem record_event_shape (o : SOptions) (store : String → KeyMeta) (cf : Bool)
    (batches : List (List String)) (sched : List Choice) (e : Entry)
    (h : Event.record e ∈ (run o store cf batches sched).events) :
    e.name = description o ∧ e.ttl.isSome = checkTTL o
      ∧ e.idletime = idleResp (store e.key)
      ∧ (checkTTL o = true → e.ttl = some (ttlResp (store e.key)))
      ∧ (checkTTL o = false → e.ttl = none) :=
  (run_pres o store cf batches (recShape o store)
    (fun s c hs => step_recShape o store cf s c hs)
    (fun _ he' => absurd he' (List.not_mem_nil _)) sched) e h

/-- C8 (witness): the record shape applied to the concrete record
emitted for a no-expiry key under a `noExpiry` configuration. -/
theorem record_event_shape_witness :
    sampleEntry.name = description { baseOpts with noExpiry := some true }
      ∧ sampleEntry.ttl.isSome = checkTTL { baseOpts with noExpiry := some true } := by
  have h := record_event_shape { baseOpts with noExpiry := some true } storePresent false
    [["a"]] [Choice.deliver, Choice.complete] sampleEntry (by decide)
  exact ⟨h.1, h.2.1⟩

theorem evalKey_noPassword (o : SOptions) (s : MState) (k : String) (a b : JSVal)
    (hs : noPasswordInv s) : noPasswordInv (evalKey o s k a b) := by
  unfold evalKey
  split
  · intro σ hmem v
    rcases List.mem_append.mp hmem with h | h
    · exact hs σ h v
    · exact absurd h (by simp)
  · exact hs

theorem step_noPassword (o : SOptions) (store : String → KeyMeta) (cf : Bool)
    (s : MState) (c : Choice) (hs : noPasswordInv s) : noPasswordInv (step o store cf s c) := by
  cases c
  case deliver =>
    simp only [step]
    split
    · exact hs
    · split
      · exact hs
      · split
        · exact hs
        · exact hs
  case exhaust =>
    simp only [step]
    split
    · exact hs
    · exact hs
  case complete =>
    simp only [step]
    split
    · exact hs
    · exact evalBatch_pres o store noPasswordInv
        (fun s' k' hs' => evalKey_noPassword o s' k' _ _ hs') _ _ hs
  case connError =>
    simp only [step]
    split
    · intro σ hmem v
      rcases List.mem_append.mp hmem with h | h
      · exact hs σ h v
      · exact absurd h (by simp)
    · exact hs
  case finish =>
    simp only [step]
    split
    · intro σ hmem v
      rcases List.mem_append.mp hmem with h | h
      · exact hs σ h v
      · have hσ : σ = mkSummary o s.keysScanned s.keysSelected := by
          simpa using h
        subst hσ
        intro hmem2
        simp only [mkSummary] at hmem2
        have h2 := (List.mem_filter.mp hmem2).2
        simp at h2
    · exact hs

/-- C10: whatever the configuration — in particular when a password is
configured — no summary event ever carries a `password` field: `endScan`
echoes `_.omit(options, 'password')`.  The password field does exist in
the un-omitted option fields, so the omission is what removes it. -/
theorem summary_omits_password (o : SOptions) (store : String → KeyMeta) (cf : Bool)
    (batches : List (List String)) (sched : List Choice) (σ : Summary)
    (h : Event.summary σ ∈ (run o store cf batches sched).events) :
    (∀ v : String, ("password", v) ∉ σ.echoed)
      ∧ (∀ p, o.password = some p → ("password", p) ∈ optionFields o) := by
  constructor
  · exact (run_pres o store cf batches (noPasswordInv)
      (fun s c hs => step_noPassword o store cf s c hs)
      (fun σ' hmem => absurd hmem (List.not_mem_nil _)) sched) σ h
  · intro p hp
    simp [optionFields, hp, List.mem_append]

/-- C10 (witness): a concrete run with a configured password whose
emitted summary provably lacks the password field (which the raw option
fields do contain). -/
theorem summary_omits_password_witness :
    (∀ v : String, ("password", v) ∉
        (mkSummary { baseOpts with password := some "hunter2" } 0 0).echoed)
      ∧ (∀ p, ({ baseOpts with password := some "hunter2" } : SOptions).password = some p →
        ("password", p) ∈ optionFields { baseOpts with password := some "hunter2" }) :=
  summary_omits_password { baseOpts with password := some "hunter2" } storePresent false
    [] [Choice.exhaust, Choice.finish] (mkSummary { baseOpts with password := some "hunter2" } 0 0)
    (by decide)

/-- C1 (counterexample): with `noExpiry` present but `false`, a key with
`ttl = -1` satisfies every clause of the claim's list (all bounds absent,
and `ttl == -1` settles the no-expiry disjunct under either reading of
"requested"), yet `selectKey` rejects it: the clause in the code is
`options.noExpiry && ttl === -1`, so a falsy configured `noExpiry`
rejects every key. -/
theorem selectKey_noExpiryFalse_cex :
    selectSpecC1 ceOptsNoExpiryFalse 0 (-1) = true ∧
      selectKey ceOptsNoExpiryFalse false (.num 0) (.num (-1)) = false :=
  ⟨rfl, rfl⟩

/-- C1 (amended): on a key evaluation with the selection-limit latch
unset and numeric metadata, `selectKey` accepts exactly when every
configured bound clause holds inclusively — `idletime ≤ maxIdle`,
`ttl ≤ maxTTL`, `idletime ≥ minIdle`, `ttl ≥ minTTL` when configured —
and, when the `noExpiry` option is present, its value is truthy and
`ttl == -1`. -/
theorem selectKey_iff_bounds (o : SOptions) (i t : Int) :
    selectKey o false (.num i) (.num t) = true ↔
      ((∀ b, o.maxIdle = some b → i ≤ b) ∧ (∀ b, o.maxTTL = some b → t ≤ b) ∧
        (∀ b, o.minIdle = some b → b ≤ i) ∧ (∀ b, o.minTTL = some b → b ≤ t) ∧
        (∀ b, o.noExpiry = some b → b = true ∧ t = -1)) := by
  cases hmi : o.maxIdle <;> cases hmt : o.maxTTL <;> cases hni : o.minIdle <;>
    cases hnt : o.minTTL <;> cases hne : o.noExpiry <;>
    simp [selectKey, jsLe, jsGe, jsEqInt, hmi, hmt, hni, hnt, hne, and_assoc]

theorem tfOk_eq (raw : RawOptions) (key : String) :
    tfOk raw key =
      (match List.lookup key raw with
       | none => true
       | some v => (timeframeToSeconds v).isSome) := by
  unfold tfOk tfField
  cases List.lookup key raw with
  | none => rfl
  | some v => cases h : timeframeToSeconds v <;> simp [h]

theorem tf4_ok_eq (raw : RawOptions) :
    (match tf4 raw with | .ok _ => true | .error _ => false) =
      (tfOk raw "maxIdle" && (tfOk raw "maxTTL" && (tfOk raw "minIdle" && tfOk raw "minTTL"))) := by
  unfold tf4 tfOk
  rcases h1 : tfField raw "maxIdle" with e1 | v1 <;>
    rcases h2 : tfField raw "maxTTL" with e2 | v2 <;>
    rcases h3 : tfField raw "minIdle" with e3 | v3 <;>
    rcases h4 : tfField raw "minTTL" with e4 | v4 <;> rfl

theorem validRaw_eq (raw : RawOptions) :
    validRaw raw =
      (jsTruthy (List.lookup "host" raw)
        && (match jsToNumber (List.lookup "port" raw) with
            | none => false
            | some p => decide (p ≠ 0))
        && (tfOk raw "maxIdle" && (tfOk raw "maxTTL" && (tfOk raw "minIdle" && tfOk raw "minTTL")))
        && (unsupportedKeys raw).isEmpty) := by
  unfold validRaw
  simp [tfOk_eq]

/-- C5 (counterexample): the configuration `{host: "h", port: 0}` has a
host, a present and numeric port, well-formed (absent) timeframe bounds
and no unrecognized key — free of every defect the claim lists — yet
validation rejects it, because the code tests `Number(port)` for JS
truthiness and 0 is falsy. -/
theorem sanitize_port_zero_cex :
    jsToNumber (List.lookup "port" [("host", RawVal.str "h"), ("port", RawVal.num 0)])
        = some 0 ∧
      unsupportedKeys [("host", RawVal.str "h"), ("port", RawVal.num 0)] = [] ∧
      sanitizeOptions [("host", RawVal.str "h"), ("port", RawVal.num 0)]
        = .error "Port number is required" :=
  ⟨rfl, rfl, rfl⟩

/-- C5 (amended): validation succeeds exactly when the host is present
and truthy, `Number(port)` is a nonzero number (so an absent, null, zero
or non-numeric port is rejected), every timeframe bound present parses
as a timeframe, and every configuration key is in the supported set; it
fails with a `TypeError` otherwise.  Validation is a pure function of
the raw options, performed by the constructor before any connection is
opened. -/
theorem sanitize_ok_iff (raw : RawOptions) : sanitizeOk raw = validRaw raw := by
  rw [validRaw_eq]
  unfold sanitizeOk sanitizeOptions
  cases hh : jsTruthy (List.lookup "host" raw)
  · simp
  · simp only [Bool.not_true, Bool.false_eq_true, if_false, Bool.true_and]
    cases hp : jsToNumber (List.lookup "port" raw) with
    | none => simp
    | some p =>
      by_cases hp0 : p = 0
      · subst hp0; simp
      · simp only [if_neg hp0]
        have h4 := tf4_ok_eq raw
        rcases ht : tf4 raw with e | ⟨mi, mt, ni, nt⟩
        · rw [ht] at h4
          simp [← h4, hp0]
        · rw [ht] at h4
          cases hu : (unsupportedKeys raw).isEmpty
          · simp [hu, ← h4, hp0]
          · simp [hu, ← h4, hp0]

/-- C1 (witness): the amended equivalence applied at a concrete bounded
configuration and key. -/
theorem selectKey_iff_bounds_witness :
    selectKey { baseOpts with maxIdle := some 10, minTTL := some (-1) } false
      (.num 3) (.num (-1)) = true :=
  (selectKey_iff_bounds { baseOpts with maxIdle := some 10, minTTL := some (-1) } 3 (-1)).mpr
    (by
      refine ⟨?_, ?_, ?_, ?_, ?_⟩ <;> intro b hb <;> simp [baseOpts] at hb ⊢ <;> omega)

theorem mkSummaryErr_none (o : SOptions) (ks sel : Nat) :
    mkSummaryErr o ks sel none = mkSummary o ks sel := rfl

theorem stepF_healthy_agrees (o : SOptions) (store : String → KeyMeta) (s : MState) (df : Bool) :
    (stepF o store ⟨s, true, df⟩ FChoice.deliver).core = step o store false s Choice.deliver
      ∧ (stepF o store ⟨s, true, df⟩ FChoice.exhaust).core = step o store false s Choice.exhaust
      ∧ (stepF o store ⟨s, true, df⟩ FChoice.complete).core = step o store false s Choice.complete
      ∧ (stepF o store ⟨s, true, df⟩ FChoice.connError).core
        = step o store false s Choice.connError
      ∧ (stepF o store ⟨s, true, false⟩ FChoice.finish).core
        = step o store false s Choice.finish := by
  refine ⟨rfl, rfl, rfl, rfl, ?_⟩
  cases h1 : s.endInitiated <;> cases h2 : s.finished <;> cases h3 : s.inflight.isEmpty <;>
    simp [stepF, step, h1, h2, h3, mkSummaryErr, mkSummary]

theorem evalKey_uninitNoSummary (o : SOptions) (s : MState) (k : String) (a b : JSVal)
    (hs : uninitNoSummary s) : uninitNoSummary (evalKey o s k a b) := by
  unfold evalKey
  split
  · intro he σ hmem
    rcases List.mem_append.mp hmem with h | h
    · exact hs he σ h
    · exact absurd h (by simp)
  · exact hs

theorem step_uninitNoSummary (o : SOptions) (store : String → KeyMeta) (cf : Bool)
    (s : MState) (c : Choice) (hs : uninitNoSummary s) :
    uninitNoSummary (step o store cf s c) := by
  cases c
  case deliver =>
    simp only [step]
    split
    · exact hs
    · split
      · exact hs
      · split
        · intro he
          exact absurd he (by simp)
        · intro he σ hmem
          exact hs he σ hmem
  case exhaust =>
    simp only [step]
    split
    · exact hs
    · intro he
      exact absurd he (by simp)
  case complete =>
    simp only [step]
    split
    · exact hs
    · exact evalBatch_pres o store uninitNoSummary
        (fun s' k' hs' => evalKey_uninitNoSummary o s' k' _ _ hs') _ _ hs
  case connError =>
    simp only [step]
    split
    · intro he σ hmem
      rcases List.mem_append.mp hmem with h | h
      · exact hs he σ h
      · exact absurd h (by simp)
    · exact hs
  case finish =>
    simp only [step]
    split
    · rename_i hguard
      intro he
      have hinit : s.endInitiated = true := by
        revert hguard
        cases s.endInitiated <;> simp
      have h2 : s.endInitiated = false := he
      rw [hinit] at h2
      exact absurd h2 (by simp)
    · exact hs

theorem stepF_uninitNoSummary (o : SOptions) (store : String → KeyMeta)
    (st : FState) (c : FChoice) (hs : uninitNoSummary st.core) :
    uninitNoSummary (stepF o store st c).core := by
  cases c
  case deliver =>
    simp only [stepF]
    split
    · exact step_uninitNoSummary o store false st.core Choice.deliver hs
    · exact hs
  case exhaust =>
    simp only [stepF]
    split
    · exact step_uninitNoSummary o store false st.core Choice.exhaust hs
    · exact hs
  case complete =>
    simp only [stepF]
    split
    · exact step_uninitNoSummary o store false st.core Choice.complete hs
    · exact hs
  case completeFail =>
    simp only [stepF]
    split
    · exact hs
    · split
      · exact hs
      · intro he σ hmem
        exact hs he σ hmem
  case connDrop =>
    exact hs
  case connError =>
    simp only [stepF]
    split
    · intro he σ hmem
      rcases List.mem_append.mp hmem with h | h
      · exact hs he σ h
      · exact absurd h (by simp)
    · exact hs
  case finish =>
    simp only [stepF]
    split
    · rename_i hguard
      intro he
      have hinit : st.core.endInitiated = true := by
        revert hguard
        cases st.core.endInitiated <;> simp
      have h2 : st.core.endInitiated = false := he
      rw [hinit] at h2
      exact absurd h2 (by simp)
    · exact hs

theorem stepF_dead_no_delivery (o : SOptions) (store : String → KeyMeta)
    (st : FState) (h : st.connUp = false) :
    stepF o store st FChoice.deliver = st ∧ stepF o store st FChoice.exhaust = st := by
  constructor <;> simp [stepF, h]

theorem stepF_finish_writes_summary (o : SOptions) (store : String → KeyMeta) (st : FState)
    (h1 : st.core.endInitiated = true) (h2 : st.core.inflight = [])
    (h3 : st.core.finished = false) :
    (stepF o store st FChoice.finish).core.events
      = st.core.events ++
        [Event.summary (mkSummaryErr o st.core.keysScanned st.core.keysSelected
          (if st.drainFailed then some connErrMsg else none)), Event.endEvent] := by
  simp [stepF, h1, h2, h3]

/-- C9 (counterexample): the claim fails mid-drain.  With scan-limit 1,
the first delivered batch pauses the stream and initiates `endScan`;
the connection then drops, the once-guarded redis error handler emits
the error event, the in-flight pipeline rejects, and `endScan`'s
`.catch` branch still writes the summary — carrying an `error` field —
followed by the end signal.  The error event is followed by a summary. -/
theorem error_then_summary_cex :
    (runF { baseOpts with scanLimit := some 1 } storePresent [["a"]]
        [FChoice.deliver, FChoice.connDrop, FChoice.connError, FChoice.completeFail,
         FChoice.finish]).core.events
      = [Event.errorEvent,
         Event.summary (mkSummaryErr { baseOpts with scanLimit := some 1 } 1 0
           (some connErrMsg)),
         Event.endEvent]
      ∧ Event.errorEvent ∈ (runF { baseOpts with scanLimit := some 1 } storePresent [["a"]]
          [FChoice.deliver, FChoice.connDrop, FChoice.connError, FChoice.completeFail,
           FChoice.finish]).core.events
      ∧ Event.summary (mkSummaryErr { baseOpts with scanLimit := some 1 } 1 0
            (some connErrMsg))
          ∈ (runF { baseOpts with scanLimit := some 1 } storePresent [["a"]]
            [FChoice.deliver, FChoice.connDrop, FChoice.connError, FChoice.completeFail,
             FChoice.finish]).core.events := by
  refine ⟨rfl, ?_, ?_⟩ <;> decide

/-- C9 (amended): an error event precludes a summary only when the
connection fails before `endScan` is initiated.  In every execution
whose terminal state has not initiated `endScan`, no summary event
occurs at all; and a dead connection admits no batch delivery and no
exhaustion signal — the only initiators of `endScan` — so in particular
a connection-establishment failure (before any batch) yields the error
event and never a summary.  Once `endScan` is initiated, a mid-drain
connection failure does not preempt it: the drained rejection is caught
and `finish` still writes the summary, carrying the error as a field,
followed by the end signal. -/
theorem error_summary_scope (o : SOptions) (store : String → KeyMeta)
    (batches : List (List String)) (sched : List FChoice) :
    ((runF o store batches sched).core.endInitiated = false →
        ∀ σ : Summary, Event.summary σ ∉ (runF o store batches sched).core.events)
      ∧ (∀ st : FState, st.connUp = false →
          stepF o store st FChoice.deliver = st ∧ stepF o store st FChoice.exhaust = st)
      ∧ (∀ st : FState, st.core.endInitiated = true → st.core.inflight = [] →
          st.core.finished = false →
          (stepF o store st FChoice.finish).core.events
            = st.core.events ++
              [Event.summary (mkSummaryErr o st.core.keysScanned st.core.keysSelected
                (if st.drainFailed then some connErrMsg else none)), Event.endEvent]) := by
  refine ⟨?_, fun st h => stepF_dead_no_delivery o store st h,
    fun st h1 h2 h3 => stepF_finish_writes_summary o store st h1 h2 h3⟩
  exact foldl_pres (stepF o store) (fun st => uninitNoSummary st.core)
    (fun st c hs => stepF_uninitNoSummary o store st c hs) sched (initFState batches)
    (fun _ σ hmem => absurd hmem (List.not_mem_nil _))

/-- C9 (witness): a concrete pre-delivery connection failure — the
error event fires, `endScan` is never initiated, and the summary is
provably absent. -/
theorem error_summary_scope_witness :
    Event.summary (mkSummaryErr baseOpts 0 0 none) ∉
      (runF baseOpts storePresent [["a"]]
        [FChoice.connDrop, FChoice.connError]).core.events :=
  (error_summary_scope baseOpts storePresent [["a"]]
      [FChoice.connDrop, FChoice.connError]).1
    (by rfl) (mkSummaryErr baseOpts 0 0 none)


end RedisKeyScanner
